import Mathlib

/-!
Shallow embedding of `src/data_processing.py` (sales clean/transform pipeline).

Rows are association lists mirroring Python dicts (keys in insertion order,
unique in practice).  Cleaned values are modelled by the inductive `Value`
(str / int / float / None); Python floats are modelled exactly as rationals,
which is faithful here because the pipeline never performs float arithmetic:
prices are parsed once and passed through.  Python exceptions are modelled by
`Option` (`none` = the call raises).
-/

namespace DP

/-- A Python value occurring in a cleaned record: `str`, `int`, `float`
(modelled as an exact rational) or `None`. -/
inductive Value where
  | vStr (s : String)
  | vInt (n : Int)
  | vRat (q : ℚ)
  | vNone
deriving DecidableEq, Repr

/-- A raw CSV row: dict from column name to raw string. -/
abbrev RawRow := List (String × String)

/-- A cleaned row: dict from column name to cleaned value. -/
abbrev CRow := List (String × Value)

/-- Python truthiness of a cleaned value (`bool(v)`). -/
def truthy : Value → Bool
  | Value.vStr s => decide (s ≠ "")
  | Value.vInt n => decide (n ≠ 0)
  | Value.vRat q => decide (q ≠ 0)
  | Value.vNone => false

/-- Python `==` between two values: numeric types compare by value across
int/float, `None` equals only `None`, strings never equal numbers. -/
def pyEqV : Value → Value → Bool
  | Value.vStr a, Value.vStr b => decide (a = b)
  | Value.vInt a, Value.vInt b => decide (a = b)
  | Value.vInt a, Value.vRat b => decide ((a : ℚ) = b)
  | Value.vRat a, Value.vInt b => decide (a = (b : ℚ))
  | Value.vRat a, Value.vRat b => decide (a = b)
  | Value.vNone, Value.vNone => true
  | _, _ => false

/-- No two consecutive underscores (part of Python's int-literal grammar). -/
def noDoubleUnderscore : List Char → Bool
  | c1 :: c2 :: rest => !(c1 == '_' && c2 == '_') && noDoubleUnderscore (c2 :: rest)
  | _ => true

/-- Digit run accepted by Python `int()`: non-empty, digits with single
underscores strictly between digits. -/
def intDigitsOk (cs : List Char) : Bool :=
  decide (cs ≠ [])
    && cs.all (fun c => c.isDigit || c == '_')
    && (cs.head?.elim false Char.isDigit)
    && (cs.getLast?.elim false Char.isDigit)
    && noDoubleUnderscore cs

/-- Numeric value of a list of decimal digits. -/
def natOfDigits (cs : List Char) : Nat :=
  cs.foldl (fun n c => 10 * n + (c.toNat - 48)) 0

/-- Python `str.strip()`: remove leading and trailing whitespace. -/
def pyStrip (s : String) : String :=
  (((s.toList.dropWhile Char.isWhitespace).reverse.dropWhile Char.isWhitespace).reverse).asString

/-- Python `int(s)` on a string: strip whitespace, optional sign, decimal
digits (underscores allowed between digits); `none` = raises `ValueError`. -/
def pyInt (s : String) : Option Int :=
  let cs := (pyStrip s).toList
  let body : List Char :=
    if cs.head? = some '+' ∨ cs.head? = some '-' then cs.tail else cs
  let sign : Int := if cs.head? = some '-' then -1 else 1
  if intDigitsOk body then some (sign * (natOfDigits (body.filter Char.isDigit) : Int)) else none

/-- Python `int(v)` on a cleaned value: strings parse, ints pass through,
floats truncate toward zero, `None` raises. -/
def pyIntOf : Value → Option Int
  | Value.vStr s => pyInt s
  | Value.vInt n => some n
  | Value.vRat q => some (Int.tdiv q.num q.den)
  | Value.vNone => none

/-- Python `float(s)` restricted to strings made of digits and dots (the only
inputs `clean_price` feeds it): accepted iff at most one dot and at least one
digit; `none` = raises `ValueError`. -/
def parsePyFloat (s : String) : Option ℚ :=
  let cs := s.toList
  if cs.count '.' ≤ 1 ∧ cs.any Char.isDigit then
    let ip := cs.takeWhile (fun c => !(c == '.'))
    let fp := (cs.dropWhile (fun c => !(c == '.'))).tail
    some (mkRat (natOfDigits ip * 10 ^ fp.length + natOfDigits fp) (10 ^ fp.length))
  else none

/-- `clean_location`: empty string becomes `None`, otherwise unchanged. -/
def clean_location (value : String) : Value :=
  if value = "" then Value.vNone else Value.vStr value

/-- `clean_price`: drop every character that is not a digit or a dot; empty
remainder gives `0.0`, otherwise `float(...)` (which may raise). -/
def clean_price (value : String) : Option ℚ :=
  let cleaned_value := (value.toList.filter (fun c => c.isDigit || c == '.')).asString
  if cleaned_value = "" then some 0 else parsePyFloat cleaned_value

/-- `clean_date`: replace `/` by `-` when a `/` is present, else unchanged. -/
def clean_date (value : String) : String :=
  if value.toList.contains '/' then
    (value.toList.map (fun c => if c = '/' then '-' else c)).asString
  else value

/-- `clean_quantity`: `int(value)` clamped below by `0`; parse failure gives `0`. -/
def clean_quantity (value : String) : Int :=
  match pyInt value with
  | some n => if 0 ≤ n then n else 0
  | none => 0

/-- `clean_value`: dispatch per key (Location / Price / Date / Quantity /
pass-through); `none` = the underlying cleaner raised. -/
def clean_value (key : String) (value : String) : Option Value :=
  if key = "Location" then some (clean_location value)
  else if key = "Price" then (clean_price value).map Value.vRat
  else if key = "Date" then some (Value.vStr (clean_date value))
  else if key = "Quantity" then some (Value.vInt (clean_quantity value))
  else some (Value.vStr value)

/-- Python `str.isdigit()` (ASCII): non-empty and all decimal digits. -/
def pyIsdigit (s : String) : Bool :=
  decide (s ≠ "") && s.toList.all Char.isDigit

/-- The structural filter of `clean_data`: a row passes iff every required id
field is present, truthy (non-empty) and `isdigit`. -/
def structuralOk (id_fields : List String) (row : RawRow) : Bool :=
  id_fields.all fun f =>
    match row.lookup f with
    | none => false
    | some v => decide (v ≠ "") && pyIsdigit v

/-- Map a fallible function over a list, failing as soon as one element fails
(a Python loop or comprehension that can raise). -/
def optionMapList {α β : Type} (f : α → Option β) : List α → Option (List β)
  | [] => some []
  | a :: as =>
      match f a, optionMapList f as with
      | some b, some bs => some (b :: bs)
      | _, _ => none

/-- Clean one retained row: strip every value, then apply `clean_value`
key-wise (dict comprehensions in the source). -/
def cleanRow (row : RawRow) : Option CRow :=
  optionMapList (fun kv => (clean_value kv.1 (pyStrip kv.2)).map (fun w => (kv.1, w))) row

/-- Lexicographic less-than on character lists: Python string comparison by
code point. -/
def listLt : List Char → List Char → Bool
  | [], [] => false
  | [], _ :: _ => true
  | _ :: _, [] => false
  | a :: as, b :: bs =>
      if a < b then true
      else if b < a then false
      else listLt as bs

/-- Python `a < b` on strings. -/
def strLt (a b : String) : Bool := listLt a.toList b.toList

/-- Insert a field-value pair into a list sorted by key (keys are distinct in
rows built from Python dicts, so ordering by key alone matches Python's
ordering of the `(key, value)` tuples). -/
def insertSorted (p : String × Value) : CRow → CRow
  | [] => [p]
  | q :: qs => if strLt q.1 p.1 then q :: insertSorted p qs else p :: q :: qs

/-- Canonical identity of a cleaned record: `tuple(sorted(row.items()))`. -/
def canon (r : CRow) : CRow := r.foldr insertSorted []

/-- The dedup loop of `clean_data`: keep a row iff its canonical identity has
not been seen; the seen set threads through. -/
def dedupFirstAux : List CRow → List CRow → List CRow
  | _, [] => []
  | seen, r :: rs =>
      if canon r ∈ seen then dedupFirstAux seen rs
      else r :: dedupFirstAux (canon r :: seen) rs

/-- Default id-field argument of `clean_data`. -/
def defaultIdFields : List String := ["ProductID", "SaleID", "RetailerID"]

/-- `clean_data`: structural filter, then per-row cleaning, then first-wins
deduplication by canonical identity; `none` = some row's cleaning raised. -/
def clean_data (id_fields : List String) (data : List RawRow) : Option (List CRow) :=
  match optionMapList cleanRow (data.filter (structuralOk id_fields)) with
  | some cleaned => some (dedupFirstAux [] cleaned)
  | none => none

/-- Gregorian leap year. -/
def isLeap (y : Nat) : Bool :=
  (y % 4 == 0 && y % 100 != 0) || y % 400 == 0

/-- Days in a month of the Gregorian calendar. -/
def daysInMonth (y m : Nat) : Nat :=
  if m == 2 then (if isLeap y then 29 else 28)
  else if m == 4 || m == 6 || m == 9 || m == 11 then 30
  else 31

/-- Ordinal day within the year (1-based). -/
def dayOfYear (y m d : Nat) : Nat :=
  (List.range (m - 1)).foldl (fun acc i => acc + daysInMonth y (i + 1)) d

/-- Days in all years strictly before year `y` (proleptic Gregorian). -/
def daysBeforeYear (y : Nat) : Nat :=
  365 * (y - 1) + (y - 1) / 4 - (y - 1) / 100 + (y - 1) / 400

/-- Proleptic Gregorian ordinal, `0001-01-01` being day 1 (as
`datetime.date.toordinal`). -/
def ordinalOf (y m d : Nat) : Nat :=
  daysBeforeYear y + dayOfYear y m d

/-- Full weekday names as produced by `strftime` with `%A`. -/
def weekdayNames : List String :=
  ["Monday", "Tuesday", "Wednesday", "Thursday", "Friday", "Saturday", "Sunday"]

/-- `strftime` with `%A`: full weekday name (day 1 is a Monday). -/
def weekdayName (y m d : Nat) : String :=
  weekdayNames.getD ((ordinalOf y m d + 6) % 7) ""

/-- ISO weekday, 1 = Monday .. 7 = Sunday. -/
def isoWeekday (y m d : Nat) : Nat :=
  (ordinalOf y m d + 6) % 7 + 1

/-- Number of ISO weeks in year `y` (53 iff Jan 1 is a Thursday, or a
Wednesday of a leap year). -/
def isoWeeksIn (y : Nat) : Nat :=
  if isoWeekday y 1 1 == 4 || (isLeap y && isoWeekday y 1 1 == 3) then 53 else 52

/-- `date.isocalendar()[1]`: ISO 8601 week number. -/
def isoWeek (y m d : Nat) : Nat :=
  let w := (dayOfYear y m d + 10 - isoWeekday y m d) / 7
  if w == 0 then isoWeeksIn (y - 1)
  else if w > isoWeeksIn y then 1
  else w

/-- `str.split(sep)` for a one-character separator, on the character list. -/
def splitOnChar (sep : Char) : List Char → List (List Char)
  | [] => [[]]
  | c :: cs =>
      match splitOnChar sep cs with
      | r :: rs => if c == sep then [] :: r :: rs else (c :: r) :: rs
      | [] => [[c]]

/-- `int(date_parts[i])` for the first three `-`-separated components; `none`
= `IndexError` (fewer than three parts) or `ValueError` (non-integer part). -/
def dateComponents (s : String) : Option (Int × Int × Int) :=
  match splitOnChar '-' s.toList with
  | p0 :: p1 :: p2 :: _ =>
      match pyInt p0.asString, pyInt p1.asString, pyInt p2.asString with
      | some y, some m, some d => some (y, m, d)
      | _, _, _ => none
  | _ => none

/-- `datetime.strptime` with format `%Y-%m-%d`: exactly three `-`-separated
fields, a 4-digit year, 1-2 digit month and day, forming a valid calendar
date (year at least 1); `none` = raises `ValueError`. -/
def pyStrptimeYMD (s : String) : Option (Nat × Nat × Nat) :=
  match splitOnChar '-' s.toList with
  | [ys, ms, ds] =>
      if ys.length = 4 ∧ ys.all Char.isDigit
          ∧ (ms.length = 1 ∨ ms.length = 2) ∧ ms.all Char.isDigit
          ∧ (ds.length = 1 ∨ ds.length = 2) ∧ ds.all Char.isDigit then
        let y := natOfDigits ys
        let m := natOfDigits ms
        let d := natOfDigits ds
        if 1 ≤ y ∧ 1 ≤ m ∧ m ≤ 12 ∧ 1 ≤ d ∧ d ≤ daysInMonth y m then some (y, m, d)
        else none
      else none
  | _ => none

/-- Row of the product dimension. -/
structure ProductDimRecord where
  ProductID : Int
  Name : Value
  Brand : Value
  Category : Value
deriving DecidableEq, Repr

/-- Row of the retailer dimension. -/
structure RetailerDimRecord where
  RetailerID : Int
  Name : Value
  Channel : Value
  Location : Value
deriving DecidableEq, Repr

/-- Row of the date dimension. -/
structure DateDimRecord where
  Date : Value
  Day : Int
  Month : Int
  Year : Int
  Quarter : Int
  DayOfWeek : String
  WeekOfYear : Int
deriving DecidableEq, Repr

/-- Row of the sales fact table. -/
structure SalesFactRecord where
  SaleID : Int
  ProductID : Int
  RetailerID : Int
  Date : Value
  Quantity : Int
  Price : Value
deriving DecidableEq, Repr

/-- The four accumulating record sets of `transform_data`. -/
structure TransState where
  product_dim : List ProductDimRecord
  retailer_dim : List RetailerDimRecord
  date_dim : List DateDimRecord
  sales_fact : List SalesFactRecord
deriving DecidableEq, Repr

/-- The product-dimension section of the `transform_data` loop body. -/
def productStep (st : TransState) (row : CRow) : Option TransState := do
  let pid ← row.lookup "ProductID"
  let pname ← row.lookup "ProductName"
  if (st.product_dim.all fun p => !(pyEqV pid (Value.vInt p.ProductID))) && truthy pname then do
    let pidInt ← pyIntOf pid
    let brand ← row.lookup "Brand"
    let category ← row.lookup "Category"
    pure { st with product_dim := st.product_dim ++
      [{ ProductID := pidInt, Name := pname,
         Brand := if truthy brand then brand else Value.vNone,
         Category := if truthy category then category else Value.vNone }] }
  else
    pure st

/-- The retailer-dimension section of the `transform_data` loop body. -/
def retailerStep (st : TransState) (row : CRow) : Option TransState := do
  let rid ← row.lookup "RetailerID"
  let rname ← row.lookup "RetailerName"
  if (st.retailer_dim.all fun r => !(pyEqV rid (Value.vInt r.RetailerID))) && truthy rname then do
    let ridInt ← pyIntOf rid
    let channel ← row.lookup "Channel"
    let location ← row.lookup "Location"
    pure { st with retailer_dim := st.retailer_dim ++
      [{ RetailerID := ridInt, Name := rname,
         Channel := if truthy channel then channel else Value.vNone,
         Location := if truthy location then location else Value.vNone }] }
  else
    pure st

/-- The date-dimension section of the `transform_data` loop body: split the
date string, convert the first three parts with `int`, parse the whole string
with `strptime`, derive quarter / weekday / ISO week, and append the record
behind the truthiness gate. -/
def dateStep (st : TransState) (row : CRow) : Option TransState := do
  let dval ← row.lookup "Date"
  if st.date_dim.all (fun drec => !(pyEqV dval drec.Date)) then do
    let s ← (match dval with | Value.vStr s => some s | _ => none)
    let comps ← dateComponents s
    let parsed ← pyStrptimeYMD s
    let year := comps.1
    let month := comps.2.1
    let day := comps.2.2
    let quarter := Int.fdiv (month - 1) 3 + 1
    let day_of_week := weekdayName parsed.1 parsed.2.1 parsed.2.2
    let week_of_year : Int := (isoWeek parsed.1 parsed.2.1 parsed.2.2 : Int)
    if year ≠ 0 ∧ month ≠ 0 ∧ day ≠ 0 ∧ quarter ≠ 0 ∧ day_of_week ≠ "" ∧ week_of_year ≠ 0 then
      pure { st with date_dim := st.date_dim ++
        [{ Date := dval, Day := day, Month := month, Year := year,
           Quarter := quarter, DayOfWeek := day_of_week, WeekOfYear := week_of_year }] }
    else
      pure st
  else
    pure st

/-- The sales-fact section of the `transform_data` loop body. -/
def factStep (st : TransState) (row : CRow) : Option TransState := do
  let sid ← row.lookup "SaleID"
  if st.sales_fact.all (fun frec => !(pyEqV sid (Value.vInt frec.SaleID))) then do
    let sidInt ← pyIntOf sid
    let pidInt ← (row.lookup "ProductID").bind pyIntOf
    let ridInt ← (row.lookup "RetailerID").bind pyIntOf
    let dval ← row.lookup "Date"
    let qInt ← (row.lookup "Quantity").bind pyIntOf
    let price ← row.lookup "Price"
    pure { st with sales_fact := st.sales_fact ++
      [{ SaleID := sidInt, ProductID := pidInt, RetailerID := ridInt,
         Date := dval, Quantity := qInt, Price := price }] }
  else
    pure st

/-- One iteration of the `transform_data` loop, the four sections in source
order; `none` = the iteration raised (`KeyError` on a missing column,
`ValueError` on `int(...)` or on date parsing, `AttributeError` on `split`
of a non-string date). -/
def transformRow (st : TransState) (row : CRow) : Option TransState := do
  let st ← productStep st row
  let st ← retailerStep st row
  let st ← dateStep st row
  factStep st row

/-- Fold a fallible step over a list (the `transform_data` loop). -/
def foldOption {σ α : Type} (f : σ → α → Option σ) : σ → List α → Option σ
  | st, [] => some st
  | st, a :: as =>
      match f st a with
      | some st' => foldOption f st' as
      | none => none

/-- `transform_data`: single pass over the cleaned rows, accumulating the
four record sets; `none` = the run aborts with an exception. -/
def transform_data (cleaned_data : List CRow) :
    Option (List ProductDimRecord × List RetailerDimRecord × List DateDimRecord × List SalesFactRecord) :=
  match foldOption transformRow ⟨[], [], [], []⟩ cleaned_data with
  | some st => some (st.product_dim, st.retailer_dim, st.date_dim, st.sales_fact)
  | none => none

/-- The keep-condition of `validate_data`: the three fixed id fields are
present and truthy. -/
def validOk (row : CRow) : Bool :=
  ["ProductID", "SaleID", "RetailerID"].all fun f =>
    match row.lookup f with
    | none => false
    | some v => truthy v

/-- `validate_data`: keep exactly the rows passing `validOk`, in order. -/
def validate_data (data : List CRow) : List CRow :=
  data.filter validOk

/-- The keep-condition of the Cross-field Validator as the spec words it
(for comparison with `validOk`): the three identifier fields are present
and hold non-empty strings. -/
def specKeep (row : CRow) : Bool :=
  ["ProductID", "SaleID", "RetailerID"].all fun f =>
    match row.lookup f with
    | some (Value.vStr s) => decide (s ≠ "")
    | _ => false

/-- Is a value an `int`? -/
def isIntValue : Value → Bool
  | Value.vInt _ => true
  | _ => false

/-- The twelve columns `transform_data` reads. -/
def transformKeys : List String :=
  ["ProductID", "ProductName", "Brand", "Category", "RetailerID", "RetailerName",
   "Channel", "Location", "Date", "SaleID", "Quantity", "Price"]

/-- Is an optional value a string? -/
def isStrOpt : Option Value → Bool
  | some (Value.vStr _) => true
  | _ => false

/-- Rows on which every non-date operation of `transform_data` succeeds: all
twelve columns are present, the three identifiers and Quantity coerce with
`int`, and the date value is a string — exactly the shape `clean_data` and
`validate_data` deliver. -/
def WfRow (row : CRow) : Prop :=
  (∀ k ∈ transformKeys, (row.lookup k).isSome = true)
  ∧ (∀ f ∈ ["ProductID", "RetailerID", "SaleID", "Quantity"],
      ((row.lookup f).bind pyIntOf).isSome = true)
  ∧ isStrOpt (row.lookup "Date") = true

instance (row : CRow) : Decidable (WfRow row) := by
  unfold WfRow
  infer_instance

/-- Every date recorded in a date dimension parses with `strptime`. -/
def DatesOk (dd : List DateDimRecord) : Prop :=
  ∀ drec ∈ dd, ∃ t, drec.Date = Value.vStr t ∧ (pyStrptimeYMD t).isSome = true

/-- A validated row as it reaches `transform_data` (identifiers are digit
strings, quantity an int, price a float). -/
def sampleRow (sid pid pname date : String) : CRow :=
  [("SaleID", Value.vStr sid), ("ProductID", Value.vStr pid), ("RetailerID", Value.vStr "3"),
   ("ProductName", Value.vStr pname), ("Brand", Value.vStr "B"), ("Category", Value.vStr "C"),
   ("RetailerName", Value.vStr "R"), ("Channel", Value.vStr "Online"),
   ("Location", Value.vStr "X"), ("Date", Value.vStr date),
   ("Quantity", Value.vInt 2), ("Price", Value.vRat 5)]

/-- A raw CSV row with valid identifiers. -/
def cexRaw : RawRow :=
  [("SaleID", "1"), ("ProductID", "2"), ("RetailerID", "3"),
   ("ProductName", "A"), ("Brand", ""), ("Category", "C"),
   ("RetailerName", "R"), ("Channel", "Online"), ("Location", ""),
   ("Date", "2024/03/15"), ("Quantity", "2"), ("Price", "10")]

/-- The cleaned form of `cexRaw`. -/
def cexCleaned : CRow :=
  [("SaleID", Value.vStr "1"), ("ProductID", Value.vStr "2"), ("RetailerID", Value.vStr "3"),
   ("ProductName", Value.vStr "A"), ("Brand", Value.vStr ""), ("Category", Value.vStr "C"),
   ("RetailerName", Value.vStr "R"), ("Channel", Value.vStr "Online"),
   ("Location", Value.vNone), ("Date", Value.vStr "2024-03-15"),
   ("Quantity", Value.vInt 2), ("Price", Value.vRat 10)]

/-- `cexRaw` with an empty SaleID. -/
def rawEmptySaleID : RawRow :=
  [("SaleID", ""), ("ProductID", "2"), ("RetailerID", "3"),
   ("ProductName", "A"), ("Brand", ""), ("Category", "C"),
   ("RetailerName", "R"), ("Channel", "Online"), ("Location", ""),
   ("Date", "2024/03/15"), ("Quantity", "2"), ("Price", "10")]

/-- `cexRaw` with a non-numeric ProductID. -/
def rawBadProductID : RawRow :=
  [("SaleID", "1"), ("ProductID", "12a"), ("RetailerID", "3"),
   ("ProductName", "A"), ("Brand", ""), ("Category", "C"),
   ("RetailerName", "R"), ("Channel", "Online"), ("Location", ""),
   ("Date", "2024/03/15"), ("Quantity", "2"), ("Price", "10")]

/-- `cexRaw` with a negative RetailerID. -/
def rawNegRetailerID : RawRow :=
  [("SaleID", "1"), ("ProductID", "2"), ("RetailerID", "-3"),
   ("ProductName", "A"), ("Brand", ""), ("Category", "C"),
   ("RetailerName", "R"), ("Channel", "Online"), ("Location", ""),
   ("Date", "2024/03/15"), ("Quantity", "2"), ("Price", "10")]

/-! ### Auxiliary lemmas about characters and strings -/

theorem digit_not_ws {c : Char} (h : c.isDigit = true) : c.isWhitespace = false := by
  simp only [Char.isDigit, Bool.and_eq_true, decide_eq_true_eq] at h
  obtain ⟨h1, h2⟩ := h
  simp only [Char.isWhitespace, Bool.or_eq_false_iff]
  refine ⟨⟨⟨?_, ?_⟩, ?_⟩, ?_⟩ <;>
    · rw [decide_eq_false_iff_not]
      rintro rfl
      exact absurd h1 (by decide)

theorem digit_ne_plus {c : Char} (h : c.isDigit = true) : c ≠ '+' := by
  simp only [Char.isDigit, Bool.and_eq_true, decide_eq_true_eq] at h
  rintro rfl
  exact absurd h.1 (by decide)

theorem digit_ne_minus {c : Char} (h : c.isDigit = true) : c ≠ '-' := by
  simp only [Char.isDigit, Bool.and_eq_true, decide_eq_true_eq] at h
  rintro rfl
  exact absurd h.1 (by decide)

theorem digit_ne_underscore {c : Char} (h : c.isDigit = true) : (c == '_') = false := by
  simp only [Char.isDigit, Bool.and_eq_true, decide_eq_true_eq] at h
  rw [beq_eq_false_iff_ne]
  rintro rfl
  exact absurd h.2 (by decide)

theorem dropWhile_ws_of_digits {l : List Char} (h : ∀ c ∈ l, c.isDigit = true) :
    l.dropWhile Char.isWhitespace = l := by
  cases l with
  | nil => rfl
  | cons c cs =>
      rw [List.dropWhile_cons, digit_not_ws (h c (List.mem_cons_self c cs))]
      simp

theorem pyStrip_of_digits {s : String} (h : ∀ c ∈ s.toList, c.isDigit = true) :
    pyStrip s = s := by
  unfold pyStrip
  rw [dropWhile_ws_of_digits h,
    dropWhile_ws_of_digits (fun c hc => h c (List.mem_reverse.mp hc)),
    List.reverse_reverse, String.asString_toList]

theorem noDoubleUnderscore_of_digits {l : List Char} (h : ∀ c ∈ l, c.isDigit = true) :
    noDoubleUnderscore l = true := by
  induction l with
  | nil => rfl
  | cons c cs ih =>
      cases cs with
      | nil => rfl
      | cons c2 cs2 =>
          rw [noDoubleUnderscore, digit_ne_underscore (h c (by simp))]
          simp only [Bool.false_and, Bool.not_false, Bool.true_and]
          exact ih (fun x hx => h x (List.mem_cons_of_mem c hx))

theorem intDigitsOk_of_digits {l : List Char} (hne : l ≠ [])
    (h : ∀ c ∈ l, c.isDigit = true) : intDigitsOk l = true := by
  unfold intDigitsOk
  cases l with
  | nil => exact absurd rfl hne
  | cons c cs =>
      have hlast : (c :: cs).getLast?.elim false Char.isDigit = true := by
        rw [List.getLast?_eq_getLast _ (by simp)]
        exact h _ (List.getLast_mem _)
      simp only [hlast, List.head?_cons, Option.elim_some, Bool.and_true, Bool.and_eq_true,
        decide_eq_true_eq, List.all_eq_true]
      refine ⟨⟨⟨by simp, fun x hx => by rw [h x hx]; simp⟩,
        h c (by simp)⟩, noDoubleUnderscore_of_digits h⟩

theorem pyInt_of_digits {s : String} (hne : s.toList ≠ [])
    (h : ∀ c ∈ s.toList, c.isDigit = true) :
    pyInt s = some ((natOfDigits s.toList : Int)) := by
  unfold pyInt
  rw [pyStrip_of_digits h]
  cases hl : s.toList with
  | nil => exact absurd hl hne
  | cons c cs =>
      have hc : c.isDigit = true := h c (hl ▸ List.mem_cons_self c cs)
      have hplus : ¬((c :: cs).head? = some '+' ∨ (c :: cs).head? = some '-') := by
        simp only [List.head?_cons, Option.some.injEq]
        rintro (rfl | rfl)
        · exact digit_ne_plus hc rfl
        · exact digit_ne_minus hc rfl
      have hminus : ¬((c :: cs).head? = some '-') := fun hm => hplus (Or.inr hm)
      have hall : ∀ x ∈ c :: cs, x.isDigit = true := fun x hx => h x (hl ▸ hx)
      dsimp only
      rw [if_neg hplus, if_neg hminus,
        if_pos (intDigitsOk_of_digits (by simp) hall),
        List.filter_eq_self.mpr hall]
      simp

/-! ### Lemmas about `optionMapList` and `cleanRow` -/

theorem optionMapList_mem {α β : Type} {f : α → Option β} :
    ∀ {l : List α} {l' : List β}, optionMapList f l = some l' →
      ∀ b ∈ l', ∃ a ∈ l, f a = some b := by
  intro l
  induction l with
  | nil =>
      intro l' h b hb
      simp only [optionMapList] at h
      obtain rfl := Option.some.inj h
      exact absurd hb (List.not_mem_nil b)
  | cons a as ih =>
      intro l' h b hb
      simp only [optionMapList] at h
      cases hfa : f a with
      | none => rw [hfa] at h; exact absurd h (by simp)
      | some b0 =>
          cases hrest : optionMapList f as with
          | none => rw [hfa, hrest] at h; exact absurd h (by simp)
          | some bs =>
              rw [hfa, hrest] at h
              obtain rfl := Option.some.inj h
              rcases List.mem_cons.mp hb with rfl | hb'
              · exact ⟨a, List.mem_cons_self a as, hfa⟩
              · obtain ⟨a', ha', hfa'⟩ := ih hrest b hb'
                exact ⟨a', List.mem_cons_of_mem a ha', hfa'⟩

theorem cleanRow_lookup {row : RawRow} {c : CRow} (h : cleanRow row = some c) (k : String) :
    c.lookup k = (row.lookup k).bind (fun v => clean_value k (pyStrip v)) := by
  induction row generalizing c with
  | nil =>
      simp only [cleanRow, optionMapList] at h
      obtain rfl := Option.some.inj h
      rfl
  | cons kv rest ih =>
      simp only [cleanRow, optionMapList] at h
      cases hcv : clean_value kv.1 (pyStrip kv.2) with
      | none => rw [hcv] at h; exact absurd h (by simp)
      | some w =>
          cases hrest : optionMapList
              (fun kv => (clean_value kv.1 (pyStrip kv.2)).map (fun w => (kv.1, w))) rest with
          | none => rw [hcv, hrest] at h; simp at h
          | some cs =>
              rw [hcv, hrest] at h
              simp only [Option.map_some'] at h
              obtain rfl := Option.some.inj h
              by_cases hk : k == kv.1
              · have hkeq : k = kv.1 := eq_of_beq hk
                simp only [List.lookup, hk, Option.bind]
                rw [hkeq, hcv]
              · simp only [List.lookup, hk]
                exact ih hrest

theorem cleanRow_pair {row : RawRow} {c : CRow} (h : cleanRow row = some c)
    {p : String × Value} (hp : p ∈ c) :
    ∃ kv ∈ row, p.1 = kv.1 ∧ clean_value kv.1 (pyStrip kv.2) = some p.2 := by
  obtain ⟨kv, hkv, hf⟩ := optionMapList_mem h p hp
  refine ⟨kv, hkv, ?_⟩
  cases hcv : clean_value kv.1 (pyStrip kv.2) with
  | none => rw [hcv] at hf; exact absurd hf (by simp)
  | some w =>
      rw [hcv] at hf
      simp only [Option.map_some'] at hf
      obtain rfl := Option.some.inj hf
      exact ⟨rfl, rfl⟩

/-! ### Lemmas about `clean_value` on specific keys -/

theorem clean_value_ProductID (v : String) :
    clean_value "ProductID" v = some (Value.vStr v) := rfl

theorem clean_value_SaleID (v : String) :
    clean_value "SaleID" v = some (Value.vStr v) := rfl

theorem clean_value_RetailerID (v : String) :
    clean_value "RetailerID" v = some (Value.vStr v) := rfl

/-! ### Lemmas about the dedup loop -/

theorem dedupFirstAux_sublist (seen : List CRow) (l : List CRow) :
    (dedupFirstAux seen l).Sublist l := by
  induction l generalizing seen with
  | nil => exact List.Sublist.refl []
  | cons r rs ih =>
      rw [dedupFirstAux]
      by_cases hs : canon r ∈ seen
      · rw [if_pos hs]
        exact (ih seen).cons r
      · rw [if_neg hs]
        exact (ih (canon r :: seen)).cons₂ r

theorem dedupFirstAux_not_seen {seen : List CRow} {l : List CRow} {r : CRow}
    (h : r ∈ dedupFirstAux seen l) : canon r ∉ seen := by
  induction l generalizing seen with
  | nil => exact absurd h (List.not_mem_nil r)
  | cons x xs ih =>
      rw [dedupFirstAux] at h
      by_cases hs : canon x ∈ seen
      · rw [if_pos hs] at h
        exact ih h
      · rw [if_neg hs] at h
        rcases List.mem_cons.mp h with rfl | h'
        · exact hs
        · intro hmem
          exact ih h' (List.mem_cons_of_mem _ hmem)

theorem dedupFirstAux_canon_nodup (seen : List CRow) (l : List CRow) :
    ((dedupFirstAux seen l).map canon).Nodup := by
  induction l generalizing seen with
  | nil => exact List.nodup_nil
  | cons x xs ih =>
      rw [dedupFirstAux]
      by_cases hs : canon x ∈ seen
      · rw [if_pos hs]; exact ih seen
      · rw [if_neg hs]
        rw [List.map_cons, List.nodup_cons]
        refine ⟨?_, ih (canon x :: seen)⟩
        intro hmem
        obtain ⟨r, hr, hcr⟩ := List.mem_map.mp hmem
        exact dedupFirstAux_not_seen hr (hcr ▸ List.mem_cons_self _ _)

theorem dedupFirstAux_first {seen : List CRow} {l : List CRow} {r : CRow}
    (h : r ∈ dedupFirstAux seen l) :
    l.find? (fun x => decide (canon x = canon r)) = some r := by
  induction l generalizing seen with
  | nil => exact absurd h (List.not_mem_nil r)
  | cons x xs ih =>
      rw [dedupFirstAux] at h
      by_cases hs : canon x ∈ seen
      · rw [if_pos hs] at h
        have hne : canon x ≠ canon r := by
          intro he
          exact dedupFirstAux_not_seen h (he ▸ hs)
        rw [List.find?_cons, decide_eq_false hne]
        exact ih h
      · rw [if_neg hs] at h
        rcases List.mem_cons.mp h with rfl | h'
        · rw [List.find?_cons, decide_eq_true rfl]
        · have hnotin : canon r ∉ canon x :: seen := dedupFirstAux_not_seen h'
          have hne : canon x ≠ canon r := by
            intro he
            exact hnotin (he ▸ List.mem_cons_self _ _)
          rw [List.find?_cons, decide_eq_false hne]
          exact ih h'

theorem dedupFirstAux_cover {seen : List CRow} {l : List CRow} {a : CRow}
    (ha : a ∈ l) :
    canon a ∈ seen ∨ ∃ r ∈ dedupFirstAux seen l, canon r = canon a := by
  induction l generalizing seen with
  | nil => exact absurd ha (List.not_mem_nil a)
  | cons x xs ih =>
      rw [dedupFirstAux]
      by_cases hs : canon x ∈ seen
      · rw [if_pos hs]
        rcases List.mem_cons.mp ha with rfl | ha'
        · exact Or.inl hs
        · exact ih ha'
      · rw [if_neg hs]
        rcases List.mem_cons.mp ha with rfl | ha'
        · exact Or.inr ⟨a, List.mem_cons_self _ _, rfl⟩
        · rcases @ih (canon x :: seen) ha' with hmem | ⟨r, hr, hcr⟩
          · rcases List.mem_cons.mp hmem with he | hmem'
            · exact Or.inr ⟨x, List.mem_cons_self _ _, he.symm⟩
            · exact Or.inl hmem'
          · exact Or.inr ⟨r, List.mem_cons_of_mem _ hr, hcr⟩

/-! ### Destructors for `clean_data` -/

theorem clean_data_eq {ids : List String} {data : List RawRow} {out : List CRow}
    (h : clean_data ids data = some out) :
    ∃ cleaned, optionMapList cleanRow (data.filter (structuralOk ids)) = some cleaned
      ∧ out = dedupFirstAux [] cleaned := by
  unfold clean_data at h
  cases hm : optionMapList cleanRow (data.filter (structuralOk ids)) with
  | none => rw [hm] at h; exact absurd h (by simp)
  | some cleaned =>
      rw [hm] at h
      exact ⟨cleaned, rfl, (Option.some.inj h).symm⟩

theorem mem_clean_data {ids : List String} {data : List RawRow} {out : List CRow} {r : CRow}
    (h : clean_data ids data = some out) (hr : r ∈ out) :
    ∃ raw ∈ data, structuralOk ids raw = true ∧ cleanRow raw = some r := by
  obtain ⟨cleaned, hm, rfl⟩ := clean_data_eq h
  have hr' : r ∈ cleaned := (dedupFirstAux_sublist [] cleaned).mem hr
  obtain ⟨raw, hraw, hcr⟩ := optionMapList_mem hm r hr'
  exact ⟨raw, List.mem_of_mem_filter hraw, List.of_mem_filter hraw, hcr⟩

theorem structuralOk_iff (ids : List String) (row : RawRow) :
    structuralOk ids row = true ↔
      ∀ f ∈ ids, ∃ v, row.lookup f = some v ∧ v ≠ "" ∧ v.toList.all Char.isDigit = true := by
  unfold structuralOk pyIsdigit
  rw [List.all_eq_true]
  constructor
  · intro h f hf
    have := h f hf
    cases hl : row.lookup f with
    | none => rw [hl] at this; exact absurd this (by simp)
    | some v =>
        rw [hl] at this
        simp only [Bool.and_eq_true, decide_eq_true_eq] at this
        exact ⟨v, rfl, this.1, this.2.2⟩
  · intro h f hf
    obtain ⟨v, hl, hne, hdig⟩ := h f hf
    rw [hl]
    simp only [Bool.and_eq_true, decide_eq_true_eq]
    exact ⟨hne, hne, hdig⟩

theorem clean_data_id_lookup {data : List RawRow} {out : List CRow} {r : CRow}
    (h : clean_data defaultIdFields data = some out) (hr : r ∈ out) :
    ∀ f ∈ defaultIdFields, ∃ s, r.lookup f = some (Value.vStr s)
      ∧ s ≠ "" ∧ s.toList.all Char.isDigit = true := by
  obtain ⟨raw, _, hok, hcr⟩ := mem_clean_data h hr
  intro f hf
  obtain ⟨v, hl, hne, hdig⟩ := (structuralOk_iff _ _).mp hok f hf
  have hdig' : ∀ c ∈ v.toList, c.isDigit = true := List.all_eq_true.mp hdig
  have hlook : r.lookup f = clean_value f (pyStrip v) := by
    rw [cleanRow_lookup hcr f, hl]; rfl
  rw [pyStrip_of_digits hdig'] at hlook
  have hcv : clean_value f v = some (Value.vStr v) := by
    simp only [defaultIdFields, List.mem_cons, List.not_mem_nil, or_false] at hf
    rcases hf with rfl | rfl | rfl
    · exact clean_value_ProductID v
    · exact clean_value_SaleID v
    · exact clean_value_RetailerID v
  exact ⟨v, by rw [hlook, hcv], hne, hdig⟩

/-! ### Lemmas about price and quantity cleaning -/

theorem parsePyFloat_isSome (s : String) :
    (parsePyFloat s).isSome = true ↔
      (s.toList.count '.' ≤ 1 ∧ s.toList.any Char.isDigit = true) := by
  unfold parsePyFloat
  by_cases h : s.toList.count '.' ≤ 1 ∧ s.toList.any Char.isDigit = true
  · rw [if_pos h]
    simpa using h
  · rw [if_neg h]
    simpa using h

theorem clean_price_nonneg {v : String} {q : ℚ} (h : clean_price v = some q) : 0 ≤ q := by
  unfold clean_price at h
  dsimp only at h
  split at h
  · obtain rfl := Option.some.inj h
    exact le_refl 0
  · unfold parsePyFloat at h
    dsimp only at h
    split at h
    · obtain rfl := Option.some.inj h
      rw [Rat.mkRat_eq_div]
      exact div_nonneg (by exact_mod_cast Nat.zero_le _) (by exact_mod_cast Nat.zero_le _)
    · exact absurd h (by simp)

theorem clean_quantity_nonneg (v : String) : 0 ≤ clean_quantity v := by
  unfold clean_quantity
  cases pyInt v with
  | none => exact le_refl 0
  | some n =>
      dsimp only
      split
      · assumption
      · exact le_refl 0

theorem clean_value_Quantity (v : String) :
    clean_value "Quantity" v = some (Value.vInt (clean_quantity v)) := rfl

theorem clean_value_Price (v : String) :
    clean_value "Price" v = (clean_price v).map Value.vRat := rfl

/-- The `validOk` test of `validate_data` coincides with the spec-side
`specKeep` on rows whose identifier values are strings. -/
theorem validOk_eq_specKeep {row : CRow}
    (h : ∀ f ∈ ["ProductID", "SaleID", "RetailerID"], ∀ v,
        row.lookup f = some v → ∃ s, v = Value.vStr s) :
    validOk row = specKeep row := by
  have e : ∀ f ∈ ["ProductID", "SaleID", "RetailerID"],
      (match row.lookup f with | none => false | some v => truthy v)
        = (match row.lookup f with
           | some (Value.vStr s) => decide (s ≠ "")
           | _ => false) := by
    intro f hf
    cases hl : row.lookup f with
    | none => rfl
    | some v =>
        obtain ⟨s, rfl⟩ := h f hf v hl
        rfl
  simp only [validOk, specKeep, List.all_cons, List.all_nil, Bool.and_true]
  rw [e "ProductID" (by simp), e "SaleID" (by simp), e "RetailerID" (by simp)]

/-! ### The claims -/

/-- C3 counterexample: on input `"1.2.3"` the remainder after stripping is
the non-empty unparseable `"1.2.3"`, and `clean_price` raises (modelled as
`none`) rather than returning `0.0` as the claim states. -/
theorem claim3_counterexample :
    clean_price "1.2.3" = none ∧ clean_price "1.2.3" ≠ some 0 := by
  refine ⟨by decide, ?_⟩
  intro h
  exact absurd h (by decide)

/-- C3 (amended): price cleaning strips every character that is not a digit
or a dot; an empty remainder yields `0.0` (so `""` and `"abc"` give `0.0` and
`"$1,234.56"` gives `1234.56`), and a non-empty remainder parses successfully
iff it has at most one dot and at least one digit — otherwise the call
raises instead of returning `0.0`. -/
theorem claim3_price_cleaning :
    clean_price "$1,234.56" = some (mkRat 123456 100)
    ∧ clean_price "" = some 0
    ∧ clean_price "abc" = some 0
    ∧ ∀ value : String,
        (clean_price value).isSome = true ↔
          ((value.toList.filter (fun c => c.isDigit || c == '.')).asString = ""
            ∨ ((value.toList.filter (fun c => c.isDigit || c == '.')).asString.toList.count '.' ≤ 1
                ∧ (value.toList.filter (fun c => c.isDigit || c == '.')).asString.toList.any
                    Char.isDigit = true)) := by
  refine ⟨by decide, by decide, by decide, ?_⟩
  intro value
  unfold clean_price
  dsimp only
  by_cases hc : ((value.toList.filter (fun c => c.isDigit || c == '.')).asString) = ""
  · rw [if_pos hc]
    exact ⟨fun _ => Or.inl hc, fun _ => rfl⟩
  · rw [if_neg hc]
    rw [parsePyFloat_isSome]
    constructor
    · intro h
      exact Or.inr h
    · intro h
      rcases h with h | h
      · exact absurd h hc
      · exact h

/-- C4: the structural filter of `clean_data` retains a row iff every
required identifier field is present, non-empty and all decimal digits;
in particular the three sample rows with `SaleID=""`, `ProductID="12a"`
and `RetailerID="-3"` are each dropped. -/
theorem claim4_structural_filter :
    (∀ (id_fields : List String) (data : List RawRow) (row : RawRow),
        row ∈ data.filter (structuralOk id_fields) ↔
          (row ∈ data ∧ ∀ f ∈ id_fields, ∃ v, row.lookup f = some v
            ∧ v ≠ "" ∧ v.toList.all Char.isDigit = true))
    ∧ [rawEmptySaleID].filter (structuralOk defaultIdFields) = []
    ∧ [rawBadProductID].filter (structuralOk defaultIdFields) = []
    ∧ [rawNegRetailerID].filter (structuralOk defaultIdFields) = [] := by
  refine ⟨?_, by decide, by decide, by decide⟩
  intro ids data row
  rw [List.mem_filter, structuralOk_iff]

/-- C4 witness: instantiating the filter characterization on a concrete
retained row. -/
theorem claim4_witness :
    cexRaw ∈ [cexRaw] ∧ ∀ f ∈ defaultIdFields, ∃ v, cexRaw.lookup f = some v
      ∧ v ≠ "" ∧ v.toList.all Char.isDigit = true :=
  (claim4_structural_filter.1 defaultIdFields [cexRaw] cexRaw).mp (by decide)

/-- C6: `clean_data` deduplicates the cleaned rows by canonical identity
(sorted field-value pairs): the output is the first-occurrence subsequence of
the cleaned rows — no two output rows share a canonical identity, every
output row is the first cleaned row with its identity, and every cleaned
row's identity is represented. -/
theorem claim6_dedup (ids : List String) (data : List RawRow) (cleaned out : List CRow)
    (hm : optionMapList cleanRow (data.filter (structuralOk ids)) = some cleaned)
    (h : clean_data ids data = some out) :
    out = dedupFirstAux [] cleaned
    ∧ out.Sublist cleaned
    ∧ (out.map canon).Nodup
    ∧ (∀ r ∈ out, cleaned.find? (fun x => decide (canon x = canon r)) = some r)
    ∧ (∀ a ∈ cleaned, ∃ r ∈ out, canon r = canon a) := by
  obtain ⟨cleaned', hm', rfl⟩ := clean_data_eq h
  rw [hm'] at hm
  obtain rfl := Option.some.inj hm
  refine ⟨rfl, dedupFirstAux_sublist _ _, dedupFirstAux_canon_nodup _ _,
    fun r hr => dedupFirstAux_first hr, fun a ha => ?_⟩
  rcases dedupFirstAux_cover ha with hmem | h'
  · exact absurd hmem (List.not_mem_nil _)
  · exact h'

/-- C6 witness: two identical raw rows clean to two identical records and
dedup to exactly one. -/
theorem claim6_witness :
    [cexCleaned] = dedupFirstAux [] [cexCleaned, cexCleaned]
    ∧ List.Sublist [cexCleaned] [cexCleaned, cexCleaned]
    ∧ (([cexCleaned] : List CRow).map canon).Nodup
    ∧ (∀ r ∈ [cexCleaned],
        [cexCleaned, cexCleaned].find? (fun x => decide (canon x = canon r)) = some r)
    ∧ (∀ a ∈ [cexCleaned, cexCleaned], ∃ r ∈ [cexCleaned], canon r = canon a) :=
  claim6_dedup defaultIdFields [cexRaw, cexRaw] [cexCleaned, cexCleaned] [cexCleaned]
    (by decide) (by decide)

/-- C9: the pipeline is deterministic — equal inputs give equal cleaned
record lists and equal transformed record sets. -/
theorem claim9_determinism (ids : List String) (d1 d2 : List RawRow) (c1 c2 : List CRow)
    (hd : d1 = d2) (hc : c1 = c2) :
    clean_data ids d1 = clean_data ids d2 ∧ transform_data c1 = transform_data c2 :=
  ⟨by rw [hd], by rw [hc]⟩

/-- C9 witness: determinism instantiated on a concrete input. -/
theorem claim9_witness :
    clean_data defaultIdFields [cexRaw] = clean_data defaultIdFields [cexRaw]
    ∧ transform_data [cexCleaned] = transform_data [cexCleaned] :=
  claim9_determinism defaultIdFields [cexRaw] [cexRaw] [cexCleaned] [cexCleaned] rfl rfl

/-- C5 counterexample: `clean_data` leaves the SaleID of the single cleaned
record as the string `"1"`, not as an integer value, so the cleaned record's
SaleID is not a non-negative integer as the claim states. -/
theorem claim5_counterexample :
    ((clean_data defaultIdFields [cexRaw]).map (fun out => out.map (fun r => r.lookup "SaleID")))
      = some [some (Value.vStr "1")]
    ∧ isIntValue (Value.vStr "1") = false :=
  ⟨by decide, rfl⟩

/-- C5 (amended): in every record produced by `clean_data` (default id
fields), SaleID, ProductID and RetailerID are non-empty all-digit strings —
they represent non-negative integers but are not coerced to `int` — while
every Quantity value is a non-negative integer and every Price value a
non-negative float. -/
theorem claim5_cleaned_invariant (data : List RawRow) (out : List CRow)
    (h : clean_data defaultIdFields data = some out) :
    ∀ r ∈ out,
      (∀ f ∈ defaultIdFields, ∃ s, r.lookup f = some (Value.vStr s)
        ∧ s ≠ "" ∧ s.toList.all Char.isDigit = true)
      ∧ (∀ p ∈ r, p.1 = "Quantity" → ∃ n : Int, 0 ≤ n ∧ p.2 = Value.vInt n)
      ∧ (∀ p ∈ r, p.1 = "Price" → ∃ q : ℚ, 0 ≤ q ∧ p.2 = Value.vRat q) := by
  intro r hr
  obtain ⟨raw, _, _, hcr⟩ := mem_clean_data h hr
  refine ⟨clean_data_id_lookup h hr, ?_, ?_⟩
  · intro p hp hq
    obtain ⟨kv, _, hk, hcv⟩ := cleanRow_pair hcr hp
    rw [hq] at hk
    rw [← hk, clean_value_Quantity] at hcv
    exact ⟨clean_quantity (pyStrip kv.2), clean_quantity_nonneg _,
      (Option.some.inj hcv).symm⟩
  · intro p hp hq
    obtain ⟨kv, _, hk, hcv⟩ := cleanRow_pair hcr hp
    rw [hq] at hk
    rw [← hk, clean_value_Price] at hcv
    cases hcp : clean_price (pyStrip kv.2) with
    | none => rw [hcp] at hcv; exact absurd hcv (by simp)
    | some q =>
        rw [hcp] at hcv
        simp only [Option.map_some'] at hcv
        exact ⟨q, clean_price_nonneg hcp, (Option.some.inj hcv).symm⟩

/-- C5 witness: the amended invariant instantiated on a concrete run. -/
theorem claim5_witness :
    (∀ f ∈ defaultIdFields, ∃ s, cexCleaned.lookup f = some (Value.vStr s)
      ∧ s ≠ "" ∧ s.toList.all Char.isDigit = true)
    ∧ (∀ p ∈ cexCleaned, p.1 = "Quantity" → ∃ n : Int, 0 ≤ n ∧ p.2 = Value.vInt n)
    ∧ (∀ p ∈ cexCleaned, p.1 = "Price" → ∃ q : ℚ, 0 ≤ q ∧ p.2 = Value.vRat q) :=
  claim5_cleaned_invariant [cexRaw] [cexCleaned] (by decide) cexCleaned (by decide)

/-- C7: `validate_data` returns exactly the subsequence of records whose
three identifier fields are present and non-empty (stated for records whose
identifier values are strings, the shape `clean_data` delivers), in order,
each returned record being an unaltered input record. -/
theorem claim7_validate_subsequence (data : List CRow)
    (h : ∀ row ∈ data, ∀ f ∈ ["ProductID", "SaleID", "RetailerID"], ∀ v,
        row.lookup f = some v → ∃ s, v = Value.vStr s) :
    validate_data data = data.filter specKeep ∧ (validate_data data).Sublist data := by
  constructor
  · unfold validate_data
    exact List.filter_congr (fun row hrow => validOk_eq_specKeep (h row hrow))
  · exact List.filter_sublist data

/-- C7 witness: the characterization instantiated on a concrete record
list. -/
theorem claim7_witness :
    validate_data [cexCleaned] = [cexCleaned].filter specKeep
    ∧ (validate_data [cexCleaned]).Sublist [cexCleaned] := by
  refine claim7_validate_subsequence [cexCleaned] ?_
  intro row hrow f hf v hv
  rw [List.mem_singleton] at hrow
  subst hrow
  simp only [List.mem_cons, List.not_mem_nil, or_false] at hf
  rcases hf with rfl | rfl | rfl
  · exact ⟨"2", Option.some.inj ((by decide : cexCleaned.lookup "ProductID" = some (Value.vStr "2")) ▸ hv).symm⟩
  · exact ⟨"1", Option.some.inj ((by decide : cexCleaned.lookup "SaleID" = some (Value.vStr "1")) ▸ hv).symm⟩
  · exact ⟨"3", Option.some.inj ((by decide : cexCleaned.lookup "RetailerID" = some (Value.vStr "3")) ▸ hv).symm⟩

/-- C10: the Cross-field Validator is absorbed by the Cleaner — on any
successful `clean_data` output (default id fields), `validate_data` returns
the output unchanged. -/
theorem claim10_validator_absorbed (data : List RawRow) (out : List CRow)
    (h : clean_data defaultIdFields data = some out) :
    validate_data out = out := by
  unfold validate_data
  rw [List.filter_eq_self]
  intro r hr
  have hid := clean_data_id_lookup h hr
  unfold validOk
  rw [List.all_eq_true]
  intro f hf
  have hf' : f ∈ defaultIdFields := hf
  obtain ⟨s, hl, hne, _⟩ := hid f hf'
  simp only [hl, truthy]
  simpa using hne

/-- C10 witness: the absorption on a concrete raw input. -/
theorem claim10_witness : validate_data [cexCleaned] = [cexCleaned] :=
  claim10_validator_absorbed [cexRaw] [cexCleaned] (by decide)

/-- C1 refutation by execution: two validated rows share ProductID `"1"`
(both with non-empty ProductName), yet `transform_data` emits two
ProductDimRecords with the same ProductID 1 — the uniqueness test compares
the row's string id against the stored `int` id, which in Python is never
equal, so the product dimension is not unique per ProductID and first-wins
does not hold. -/
theorem claim1_product_dim_duplicate :
    (transform_data [sampleRow "1" "1" "A" "2024-03-15",
        sampleRow "2" "1" "Bb" "2024-03-15"]).map
        (fun t => t.1.map (fun p => (p.ProductID, p.Name)))
      = some [(1, Value.vStr "A"), (1, Value.vStr "Bb")] := by decide

/-- C2 refutation by execution: two validated rows share SaleID `"7"`, yet
`transform_data` emits two SalesFactRecords with the same SaleID 7 — the
seen-test compares the row's string id against the stored `int` id, which in
Python is never equal, so the fact set is not unique per SaleID. -/
theorem claim2_sales_fact_duplicate :
    (transform_data [sampleRow "7" "1" "A" "2024-03-15",
        sampleRow "7" "2" "Bb" "2024-03-15"]).map
        (fun t => t.2.2.2.map (fun frec => (frec.SaleID, frec.ProductID)))
      = some [(7, 1), (7, 2)] := by decide

/-! ### Machinery for the date failure-mode claim -/

theorem pure_option {α : Type} (a : α) : (pure a : Option α) = some a := rfl

theorem bind_some_inv {α β : Type} {x : Option α} {f : α → Option β} {b : β}
    (h : x.bind f = some b) : ∃ a, x = some a ∧ f a = some b := by
  cases x with
  | none => exact absurd h (by simp)
  | some a =>
      rw [Option.some_bind] at h
      exact ⟨a, rfl, h⟩

theorem productStep_date_dim {row : CRow} {st st' : TransState}
    (h : productStep st row = some st') : st'.date_dim = st.date_dim := by
  unfold productStep at h
  simp only [Option.bind_eq_bind] at h
  obtain ⟨pid, hpid, h⟩ := bind_some_inv h
  obtain ⟨pname, hpname, h⟩ := bind_some_inv h
  split at h
  · obtain ⟨pidInt, _, h⟩ := bind_some_inv h
    obtain ⟨brand, _, h⟩ := bind_some_inv h
    obtain ⟨category, _, h⟩ := bind_some_inv h
    rw [pure_option] at h
    obtain rfl := Option.some.inj h
    rfl
  · rw [pure_option] at h
    obtain rfl := Option.some.inj h
    rfl

theorem retailerStep_date_dim {row : CRow} {st st' : TransState}
    (h : retailerStep st row = some st') : st'.date_dim = st.date_dim := by
  unfold retailerStep at h
  simp only [Option.bind_eq_bind] at h
  obtain ⟨rid, hrid, h⟩ := bind_some_inv h
  obtain ⟨rname, hrname, h⟩ := bind_some_inv h
  split at h
  · obtain ⟨ridInt, _, h⟩ := bind_some_inv h
    obtain ⟨channel, _, h⟩ := bind_some_inv h
    obtain ⟨location, _, h⟩ := bind_some_inv h
    rw [pure_option] at h
    obtain rfl := Option.some.inj h
    rfl
  · rw [pure_option] at h
    obtain rfl := Option.some.inj h
    rfl

theorem factStep_date_dim {row : CRow} {st st' : TransState}
    (h : factStep st row = some st') : st'.date_dim = st.date_dim := by
  unfold factStep at h
  simp only [Option.bind_eq_bind] at h
  obtain ⟨sid, hsid, h⟩ := bind_some_inv h
  split at h
  · obtain ⟨sidInt, _, h⟩ := bind_some_inv h
    obtain ⟨pidInt, _, h⟩ := bind_some_inv h
    obtain ⟨ridInt, _, h⟩ := bind_some_inv h
    obtain ⟨dval, _, h⟩ := bind_some_inv h
    obtain ⟨qInt, _, h⟩ := bind_some_inv h
    obtain ⟨price, _, h⟩ := bind_some_inv h
    rw [pure_option] at h
    obtain rfl := Option.some.inj h
    rfl
  · rw [pure_option] at h
    obtain rfl := Option.some.inj h
    rfl

theorem dateStep_inv {row : CRow} {st st' : TransState} (h : dateStep st row = some st') :
    ∃ dval, row.lookup "Date" = some dval ∧
      (((st.date_dim.all fun drec => !(pyEqV dval drec.Date)) = false ∧ st' = st)
        ∨ (∃ s parsed, dval = Value.vStr s ∧ pyStrptimeYMD s = some parsed ∧
            (st'.date_dim = st.date_dim
              ∨ ∃ drec, st'.date_dim = st.date_dim ++ [drec] ∧ drec.Date = dval))) := by
  unfold dateStep at h
  simp only [Option.bind_eq_bind] at h
  obtain ⟨dval, hdv, h⟩ := bind_some_inv h
  refine ⟨dval, hdv, ?_⟩
  by_cases hseen : (st.date_dim.all fun drec => !(pyEqV dval drec.Date)) = true
  · rw [if_pos hseen] at h
    obtain ⟨s, hs, h⟩ := bind_some_inv h
    have hdvs : dval = Value.vStr s := by
      clear h
      cases dval with
      | vStr a => exact congrArg Value.vStr (Option.some.inj hs)
      | vInt n => exact absurd hs (by simp)
      | vRat q => exact absurd hs (by simp)
      | vNone => exact absurd hs (by simp)
    obtain ⟨comps, hcomps, h⟩ := bind_some_inv h
    obtain ⟨parsed, hparsed, h⟩ := bind_some_inv h
    refine Or.inr ⟨s, parsed, hdvs, hparsed, ?_⟩
    split at h
    · rw [pure_option] at h
      obtain rfl := Option.some.inj h
      exact Or.inr ⟨_, rfl, rfl⟩
    · rw [pure_option] at h
      obtain rfl := Option.some.inj h
      exact Or.inl rfl
  · rw [if_neg hseen] at h
    rw [pure_option] at h
    obtain rfl := Option.some.inj h
    have hall : (st.date_dim.all fun drec => !(pyEqV dval drec.Date)) = false := by
      cases hb : (st.date_dim.all fun drec => !(pyEqV dval drec.Date)) with
      | false => rfl
      | true => exact absurd hb hseen
    exact Or.inl ⟨hall, rfl⟩

theorem dateStep_good {row : CRow} {st st' : TransState}
    (h : dateStep st row = some st') (hd : DatesOk st.date_dim)
    {s : String} (hs : row.lookup "Date" = some (Value.vStr s)) :
    (pyStrptimeYMD s).isSome = true := by
  obtain ⟨dval, hdv, hcase⟩ := dateStep_inv h
  rw [hdv] at hs
  obtain rfl := Option.some.inj hs
  rcases hcase with ⟨hall, _⟩ | ⟨s', parsed, hdvs, hparsed, _⟩
  · obtain ⟨drec, hdrec, hp⟩ := List.all_eq_false.mp hall
    obtain ⟨t, hdt, hparse⟩ := hd drec hdrec
    rw [hdt] at hp
    have hst : s = t := by
      simp only [pyEqV, Bool.not_eq_true', decide_eq_false_iff_not] at hp
      exact not_not.mp (fun hne => hp (fun he => hne he))
    rw [hst]
    exact hparse
  · obtain rfl : s = s' := Value.vStr.inj hdvs
    rw [hparsed]
    rfl

theorem dateStep_datesOk {row : CRow} {st st' : TransState}
    (h : dateStep st row = some st') (hd : DatesOk st.date_dim) :
    DatesOk st'.date_dim := by
  obtain ⟨dval, hdv, hcase⟩ := dateStep_inv h
  rcases hcase with ⟨_, rfl⟩ | ⟨s, parsed, rfl, hparsed, hdd | ⟨drec, hdd, hdate⟩⟩
  · exact hd
  · rw [hdd]
    exact hd
  · rw [hdd]
    intro d hdmem
    rcases List.mem_append.mp hdmem with hmem | hmem
    · exact hd d hmem
    · rw [List.mem_singleton] at hmem
      subst hmem
      exact ⟨s, hdate, by rw [hparsed]; rfl⟩

theorem productStep_isSome {row : CRow} (st : TransState) (hwf : WfRow row) :
    (productStep st row).isSome = true := by
  obtain ⟨hkeys, hints, _⟩ := hwf
  obtain ⟨pid, hpid⟩ := Option.isSome_iff_exists.mp (hkeys "ProductID" (by decide))
  obtain ⟨pname, hpname⟩ := Option.isSome_iff_exists.mp (hkeys "ProductName" (by decide))
  unfold productStep
  rw [hpid]
  simp only [Option.bind_eq_bind, Option.some_bind]
  rw [hpname]
  simp only [Option.some_bind]
  split
  · have hint := hints "ProductID" (by decide)
    rw [hpid] at hint
    simp only [Option.some_bind] at hint
    obtain ⟨pidInt, hpidInt⟩ := Option.isSome_iff_exists.mp hint
    rw [hpidInt]
    simp only [Option.some_bind]
    obtain ⟨brand, hbrand⟩ := Option.isSome_iff_exists.mp (hkeys "Brand" (by decide))
    rw [hbrand]
    simp only [Option.some_bind]
    obtain ⟨category, hcat⟩ := Option.isSome_iff_exists.mp (hkeys "Category" (by decide))
    rw [hcat]
    simp only [Option.some_bind]
    rfl
  · rfl

theorem retailerStep_isSome {row : CRow} (st : TransState) (hwf : WfRow row) :
    (retailerStep st row).isSome = true := by
  obtain ⟨hkeys, hints, _⟩ := hwf
  obtain ⟨rid, hrid⟩ := Option.isSome_iff_exists.mp (hkeys "RetailerID" (by decide))
  obtain ⟨rname, hrname⟩ := Option.isSome_iff_exists.mp (hkeys "RetailerName" (by decide))
  unfold retailerStep
  rw [hrid]
  simp only [Option.bind_eq_bind, Option.some_bind]
  rw [hrname]
  simp only [Option.some_bind]
  split
  · have hint := hints "RetailerID" (by decide)
    rw [hrid] at hint
    simp only [Option.some_bind] at hint
    obtain ⟨ridInt, hridInt⟩ := Option.isSome_iff_exists.mp hint
    rw [hridInt]
    simp only [Option.some_bind]
    obtain ⟨channel, hchan⟩ := Option.isSome_iff_exists.mp (hkeys "Channel" (by decide))
    rw [hchan]
    simp only [Option.some_bind]
    obtain ⟨location, hloc⟩ := Option.isSome_iff_exists.mp (hkeys "Location" (by decide))
    rw [hloc]
    simp only [Option.some_bind]
    rfl
  · rfl

theorem factStep_isSome {row : CRow} (st : TransState) (hwf : WfRow row) :
    (factStep st row).isSome = true := by
  obtain ⟨hkeys, hints, _⟩ := hwf
  obtain ⟨sid, hsid⟩ := Option.isSome_iff_exists.mp (hkeys "SaleID" (by decide))
  unfold factStep
  rw [hsid]
  simp only [Option.bind_eq_bind, Option.some_bind]
  split
  · have hintS := hints "SaleID" (by decide)
    rw [hsid] at hintS
    simp only [Option.some_bind] at hintS
    obtain ⟨sidInt, hsidInt⟩ := Option.isSome_iff_exists.mp hintS
    rw [hsidInt]
    simp only [Option.some_bind]
    obtain ⟨pidInt, hpidInt⟩ := Option.isSome_iff_exists.mp (hints "ProductID" (by decide))
    rw [hpidInt]
    simp only [Option.some_bind]
    obtain ⟨ridInt, hridInt⟩ := Option.isSome_iff_exists.mp (hints "RetailerID" (by decide))
    rw [hridInt]
    simp only [Option.some_bind]
    obtain ⟨dval, hdval⟩ := Option.isSome_iff_exists.mp (hkeys "Date" (by decide))
    rw [hdval]
    simp only [Option.some_bind]
    obtain ⟨qInt, hqInt⟩ := Option.isSome_iff_exists.mp (hints "Quantity" (by decide))
    rw [hqInt]
    simp only [Option.some_bind]
    obtain ⟨price, hprice⟩ := Option.isSome_iff_exists.mp (hkeys "Price" (by decide))
    rw [hprice]
    simp only [Option.some_bind]
    rfl
  · rfl

theorem string_toList_length (s : String) : s.length = s.toList.length := rfl

theorem dateComponents_of_strptime {s : String} {p : Nat × Nat × Nat}
    (h : pyStrptimeYMD s = some p) : (dateComponents s).isSome = true := by
  unfold pyStrptimeYMD at h
  unfold dateComponents
  rcases hsplit : splitOnChar '-' s.toList with _ | ⟨ys, _ | ⟨ms, _ | ⟨ds, _ | ⟨e, es⟩⟩⟩⟩ <;>
    rw [hsplit] at h
  · exact absurd h (by simp)
  · exact absurd h (by simp)
  · exact absurd h (by simp)
  · dsimp only at h ⊢
    split at h
    · rename_i hcond
      obtain ⟨hy4, hyd, hm12, hmd, hd12, hdd⟩ := hcond
      have hyd' : ∀ c ∈ ys, c.isDigit = true := List.all_eq_true.mp hyd
      have hmd' : ∀ c ∈ ms, c.isDigit = true := List.all_eq_true.mp hmd
      have hdd' : ∀ c ∈ ds, c.isDigit = true := List.all_eq_true.mp hdd
      have hyne : ys ≠ [] := by
        intro he
        rw [he] at hy4
        exact absurd hy4 (by decide)
      have hmne : ms ≠ [] := by
        intro he
        rw [he] at hm12
        rcases hm12 with h1 | h1 <;> exact absurd h1 (by decide)
      have hdne : ds ≠ [] := by
        intro he
        rw [he] at hd12
        rcases hd12 with h1 | h1 <;> exact absurd h1 (by decide)
      rw [pyInt_of_digits (by rwa [List.toList_asString])
            (by rw [List.toList_asString]; exact hyd'),
          pyInt_of_digits (by rwa [List.toList_asString])
            (by rw [List.toList_asString]; exact hmd'),
          pyInt_of_digits (by rwa [List.toList_asString])
            (by rw [List.toList_asString]; exact hdd')]
      rfl
    · exact absurd h (by simp)
  · exact absurd h (by simp)

theorem dateStep_isSome {row : CRow} (st : TransState) (hwf : WfRow row)
    (hgood : ∀ s, row.lookup "Date" = some (Value.vStr s) → (pyStrptimeYMD s).isSome = true) :
    (dateStep st row).isSome = true := by
  obtain ⟨hkeys, _, hdate⟩ := hwf
  obtain ⟨dval, hdv⟩ := Option.isSome_iff_exists.mp (hkeys "Date" (by decide))
  rw [hdv] at hdate
  cases dval with
  | vInt n => exact absurd hdate (by simp [isStrOpt])
  | vRat q => exact absurd hdate (by simp [isStrOpt])
  | vNone => exact absurd hdate (by simp [isStrOpt])
  | vStr s =>
      unfold dateStep
      rw [hdv]
      simp only [Option.bind_eq_bind, Option.some_bind]
      split
      · obtain ⟨parsed, hparsed⟩ := Option.isSome_iff_exists.mp (hgood s hdv)
        obtain ⟨comps, hcomps⟩ :=
          Option.isSome_iff_exists.mp (dateComponents_of_strptime hparsed)
        rw [hcomps]
        simp only [Option.some_bind]
        rw [hparsed]
        simp only [Option.some_bind]
        split
        · rfl
        · rfl
      · rfl

theorem transformRow_isSome {row : CRow} (st : TransState) (hwf : WfRow row)
    (hgood : ∀ s, row.lookup "Date" = some (Value.vStr s) → (pyStrptimeYMD s).isSome = true) :
    (transformRow st row).isSome = true := by
  unfold transformRow
  simp only [Option.bind_eq_bind]
  obtain ⟨st1, h1⟩ := Option.isSome_iff_exists.mp (productStep_isSome st hwf)
  rw [h1]
  simp only [Option.some_bind]
  obtain ⟨st2, h2⟩ := Option.isSome_iff_exists.mp (retailerStep_isSome st1 hwf)
  rw [h2]
  simp only [Option.some_bind]
  obtain ⟨st3, h3⟩ := Option.isSome_iff_exists.mp (dateStep_isSome st2 hwf hgood)
  rw [h3]
  simp only [Option.some_bind]
  exact factStep_isSome st3 hwf

theorem transformRow_good {row : CRow} {st st' : TransState}
    (h : transformRow st row = some st') (hd : DatesOk st.date_dim)
    {s : String} (hs : row.lookup "Date" = some (Value.vStr s)) :
    (pyStrptimeYMD s).isSome = true := by
  unfold transformRow at h
  simp only [Option.bind_eq_bind] at h
  obtain ⟨st1, h1, h⟩ := bind_some_inv h
  obtain ⟨st2, h2, h⟩ := bind_some_inv h
  obtain ⟨st3, h3, h⟩ := bind_some_inv h
  refine dateStep_good h3 ?_ hs
  rw [retailerStep_date_dim h2, productStep_date_dim h1]
  exact hd

theorem transformRow_datesOk {row : CRow} {st st' : TransState}
    (h : transformRow st row = some st') (hd : DatesOk st.date_dim) :
    DatesOk st'.date_dim := by
  unfold transformRow at h
  simp only [Option.bind_eq_bind] at h
  obtain ⟨st1, h1, h⟩ := bind_some_inv h
  obtain ⟨st2, h2, h⟩ := bind_some_inv h
  obtain ⟨st3, h3, h⟩ := bind_some_inv h
  have hd3 : DatesOk st3.date_dim := by
    refine dateStep_datesOk h3 ?_
    rw [retailerStep_date_dim h2, productStep_date_dim h1]
    exact hd
  rw [factStep_date_dim h]
  exact hd3

theorem foldOption_cons_some {σ α : Type} {f : σ → α → Option σ} {st st' : σ} {a : α}
    {as : List α} (h : f st a = some st') :
    foldOption f st (a :: as) = foldOption f st' as := by
  rw [foldOption, h]

theorem foldOption_cons_none {σ α : Type} {f : σ → α → Option σ} {st : σ} {a : α}
    {as : List α} (h : f st a = none) :
    foldOption f st (a :: as) = none := by
  rw [foldOption, h]

theorem foldTransform_isSome_iff (data : List CRow) :
    ∀ (st : TransState), (∀ r ∈ data, WfRow r) → DatesOk st.date_dim →
      ((foldOption transformRow st data).isSome = true ↔
        ∀ r ∈ data, ∀ s, r.lookup "Date" = some (Value.vStr s) →
          (pyStrptimeYMD s).isSome = true) := by
  induction data with
  | nil =>
      intro st _ _
      constructor
      · intro _ r hr
        exact absurd hr (List.not_mem_nil r)
      · intro _
        rfl
  | cons r rs ih =>
      intro st hwf hd
      cases htr : transformRow st r with
      | none =>
          rw [foldOption_cons_none htr]
          constructor
          · intro habs
            exact absurd habs (by simp)
          · intro hall
            have hsome := transformRow_isSome st (hwf r (List.mem_cons_self r rs))
              (fun s hs => hall r (List.mem_cons_self r rs) s hs)
            rw [htr] at hsome
            exact absurd hsome (by simp)
      | some st' =>
          rw [foldOption_cons_some htr]
          have hiff := ih st' (fun x hx => hwf x (List.mem_cons_of_mem _ hx))
            (transformRow_datesOk htr hd)
          constructor
          · intro hsome x hx s hs
            rcases List.mem_cons.mp hx with rfl | hx'
            · exact transformRow_good htr hd hs
            · exact hiff.mp hsome x hx' s hs
          · intro hall
            exact hiff.mpr (fun x hx s hs => hall x (List.mem_cons_of_mem _ hx) s hs)

/-- C8: on well-formed rows (all twelve columns present, integer-coercible
identifiers and quantity, string-valued dates — the shape validated rows
have), `transform_data` returns normally iff every Date value conforms to
`YYYY-MM-DD`; equivalently, any nonconforming Date value aborts the whole
run with a parse failure rather than skipping the row. -/
theorem claim8_date_failure_fatal (data : List CRow) (hwf : ∀ r ∈ data, WfRow r) :
    (transform_data data).isSome = true ↔
      ∀ r ∈ data, ∀ s, r.lookup "Date" = some (Value.vStr s) →
        (pyStrptimeYMD s).isSome = true := by
  have h0 : DatesOk (TransState.date_dim ⟨[], [], [], []⟩) :=
    fun d hd => absurd hd (List.not_mem_nil _)
  have hiff := foldTransform_isSome_iff data ⟨[], [], [], []⟩ hwf h0
  unfold transform_data
  cases hf : foldOption transformRow ⟨[], [], [], []⟩ data with
  | none =>
      rw [hf] at hiff
      simpa using hiff
  | some st =>
      rw [hf] at hiff
      simpa using hiff

/-- C8 witness: a one-row input with the conforming date `2024-03-15`
transforms successfully. -/
theorem claim8_witness :
    (transform_data [sampleRow "1" "1" "A" "2024-03-15"]).isSome = true := by
  refine (claim8_date_failure_fatal [sampleRow "1" "1" "A" "2024-03-15"] ?_).mpr ?_
  · intro r hr
    rw [List.mem_singleton] at hr
    subst hr
    decide
  · intro r hr s hs
    rw [List.mem_singleton] at hr
    subst hr
    have he : some (Value.vStr "2024-03-15") = some (Value.vStr s) := by
      rw [← hs]
      rfl
    obtain rfl : "2024-03-15" = s := Value.vStr.inj (Option.some.inj he)
    decide

end DP
